import Mathlib

/-!
Verification of the AI-Study-Assistant repository.

Shallow embedding of the three source files
(src/subject_categorizer.py, src/database.py, src/app.py) together with
proofs of the specification claims about them.

Modelling conventions:
* Python strings are Lean `String`s; scanning works on their character lists.
* Python `re` word characters (`\w`) are modelled on the ASCII range
  (letters, digits, underscore), which covers every keyword in the table.
* Database timestamps are modelled as natural numbers supplied by the caller
  (the `datetime.utcnow()` of each operation); `strftime` on such a timestamp
  is modelled by the timestamp itself.
* SQL ratings are `Option Int` (nullable integer column), the aggregate
  average is an exact rational.
* The one `try/except/rollback` block (session deletion) is modelled by a
  boolean `commitOk` argument saying whether the storage backend raised.
-/

set_option maxRecDepth 8192

namespace StudyAssistant

/-! ### src/subject_categorizer.py -/

/-- Python regex word character (`\w`) on the ASCII range: letters, digits
and the underscore. -/
def isWordChar (c : Char) : Bool := c.isAlphanum || c == '_'

/-- Word-character test seeing the ends of the string as non-word. -/
def isWordOpt : Option Char → Bool
  | none => false
  | some c => isWordChar c

/-- A `\b` boundary holds between two (optional) characters exactly when one
side is a word character and the other is not. -/
def isBoundary (l r : Option Char) : Bool := isWordOpt l != isWordOpt r

/-- The regex `\b kw \b` (with `kw` a literal) matches at the start of `s`,
where `prev` is the character immediately before `s` (`none` at the start of
the searched string). -/
def matchesAt (kw : List Char) (prev : Option Char) (s : List Char) : Bool :=
  kw.isPrefixOf s && isBoundary prev s.head? &&
    isBoundary kw.getLast? (s.drop kw.length).head?

/-- Scanner for `re.findall(r'\b'+kw+r'\b', s)`: left-to-right, counting
non-overlapping matches and resuming right after each match.  `skip` is the
number of characters of the current match still to be consumed. -/
def countAux (kw : List Char) (prev : Option Char) (skip : Nat) :
    List Char → Nat
  | [] => 0
  | c :: cs =>
    match skip with
    | k + 1 => countAux kw (some c) k cs
    | 0 =>
      if matchesAt kw prev (c :: cs) then
        1 + countAux kw (some c) (kw.length - 1) cs
      else
        countAux kw (some c) 0 cs

/-- `len(re.findall(r'\b'+re.escape(kw)+r'\b', s))`: the number of
whole-word occurrences of the literal `kw` in `s`. -/
def countOccs (kw : List Char) (s : List Char) : Nat := countAux kw none 0 s

/-- Python `str.lower()` on the characters of a string (ASCII case). -/
def lowerChars (s : String) : List Char := s.toList.map Char.toLower

/-- Contribution of one keyword to a category score: its whole-word match
count, plus one bonus point when the keyword is longer than 6 characters and
matched at least once. -/
def keywordScore (q : List Char) (kw : String) : Nat :=
  let m := countOccs (lowerChars kw) q
  m + if 6 < kw.length ∧ 0 < m then 1 else 0

/-- The `score` accumulated by the inner `for keyword in keywords` loop. -/
def categoryScore (q : List Char) (kws : List String) : Nat :=
  kws.foldl (fun score kw => score + keywordScore q kw) 0

/-- The keyword table of src/subject_categorizer.py, in source order. -/
def SUBJECT_CATEGORIES : List (String × List String) := [
  ("Mathematics", [
    "math", "algebra", "geometry", "calculus", "trigonometry", "arithmetic", "equation",
    "formula", "theorem", "proof", "derivative", "integral", "matrix", "vector",
    "probability", "statistics", "graph", "function", "polynomial", "logarithm",
    "sine", "cosine", "tangent", "quadratic", "linear", "exponential"]),
  ("Science", [
    "physics", "chemistry", "biology", "science", "atom", "molecule", "cell",
    "organism", "evolution", "genetics", "DNA", "photosynthesis", "respiration",
    "gravity", "force", "energy", "momentum", "wave", "light", "electricity",
    "magnetism", "chemical", "reaction", "element", "compound", "ecosystem"]),
  ("History", [
    "history", "historical", "ancient", "medieval", "revolution", "war", "empire",
    "civilization", "culture", "democracy", "monarchy", "republic", "treaty",
    "constitution", "independence", "colonial", "renaissance", "reformation"]),
  ("Geography", [
    "geography", "continent", "country", "capital", "mountain", "river", "ocean",
    "climate", "weather", "latitude", "longitude", "population", "map", "atlas",
    "desert", "forest", "plateau", "valley", "island", "peninsula"]),
  ("Literature", [
    "literature", "poem", "poetry", "novel", "story", "author", "writer", "book",
    "character", "plot", "theme", "metaphor", "symbolism", "alliteration",
    "shakespeare", "prose", "verse", "narrative", "fiction", "non-fiction"]),
  ("Computer Science", [
    "programming", "computer", "software", "hardware", "algorithm", "coding", "code",
    "python", "javascript", "java", "data structure", "database", "network",
    "internet", "website", "app", "application", "debugging", "variable",
    "function", "loop", "array", "object", "class"]),
  ("Language Arts", [
    "grammar", "vocabulary", "spelling", "writing", "reading", "comprehension",
    "sentence", "paragraph", "essay", "verb", "noun", "adjective", "adverb",
    "punctuation", "comma", "period", "question mark", "exclamation"]),
  ("Social Studies", [
    "government", "politics", "economics", "society", "community", "citizenship",
    "rights", "law", "justice", "democracy", "election", "vote", "tax",
    "economy", "market", "trade", "currency", "inflation"])]

/-- The `category_scores` dict: every category with a positive score, paired
with its score, in table order. -/
def category_scores (q : List Char) : List (String × Nat) :=
  SUBJECT_CATEGORIES.filterMap (fun e =>
    let score := categoryScore q e.2
    if 0 < score then some (e.1, score) else none)

/-- Python `max(keys, key=...)`: scan left to right keeping the current
maximum and replacing it only on a strictly larger score, so of equal scores
the first one wins. -/
def pyMax (cur : String × Nat) : List (String × Nat) → String × Nat
  | [] => cur
  | y :: ys => pyMax (if cur.2 < y.2 then y else cur) ys

/-- Python `pat in s` on strings: `pat` occurs contiguously in `s`. -/
def isSubstrOf (pat : List Char) : List Char → Bool
  | [] => pat.isEmpty
  | c :: cs => pat.isPrefixOf (c :: cs) || isSubstrOf pat cs

/-- `SUBJECT_CATEGORIES[category]` (the lookup always succeeds in the code;
a missing category defaults to no keywords). -/
def lookupKeywords (category : String) : List String :=
  (SUBJECT_CATEGORIES.lookup category).getD []

/-- `categorize_question` of src/subject_categorizer.py: keyword scoring with
a confidence gate.  The Python locals `question_lower` (the lower-cased
question) and `best_category` (the `max` over `category_scores`) are
inlined.  Note the `score == 1` branch of the source tests
`keyword.lower() in question_lower`, a plain substring test. -/
def categorize_question (question : String) : Option String :=
  if question.length = 0 then none
  else
    match category_scores (lowerChars question) with
    | [] => none
    | x :: xs =>
      if 2 ≤ (pyMax x xs).2 then some (pyMax x xs).1
      else if (pyMax x xs).2 = 1 then
        if (lookupKeywords (pyMax x xs).1).any (fun kw =>
            decide (6 < kw.length) &&
              isSubstrOf (lowerChars kw) (lowerChars question))
        then some (pyMax x xs).1 else none
      else none

/-! ### src/database.py -/

/-- Row of the `study_sessions` table. -/
structure StudySessionRow where
  id : Nat
  session_name : String
  created_at : Nat
  updated_at : Nat
deriving DecidableEq, Repr

/-- Row of the `chat_exchanges` table.  `rating` and `feedback` are nullable
columns, as is `subject_category`. -/
structure ChatExchangeRow where
  id : Nat
  session_id : Nat
  question : String
  answer : String
  subject_category : Option String
  rating : Option Int
  feedback : Option String
  timestamp : Nat
deriving DecidableEq, Repr

/-- The persisted database: the two tables plus the autoincrement counters
behind their primary keys. -/
structure Database where
  sessions : List StudySessionRow
  exchanges : List ChatExchangeRow
  nextSessionId : Nat
  nextExchangeId : Nat
deriving DecidableEq, Repr

/-- A fresh database (integer primary keys start at 1). -/
def emptyDatabase : Database := ⟨[], [], 1, 1⟩

/-- `create_study_session`: insert a new session row (both timestamps default
to the current time `now`) and return its generated id. -/
def create_study_session (db : Database) (now : Nat)
    (session_name : String := "Study Session") : Nat × Database :=
  (db.nextSessionId,
   { db with
       sessions := db.sessions ++
         [{ id := db.nextSessionId, session_name := session_name,
            created_at := now, updated_at := now }],
       nextSessionId := db.nextSessionId + 1 })

/-- `save_chat_exchange`: insert a new exchange row (rating and feedback
null, timestamp defaulted to `now`) and return its generated id. -/
def save_chat_exchange (db : Database) (now : Nat) (session_id : Nat)
    (question answer : String) (subject_category : Option String := none) :
    Nat × Database :=
  (db.nextExchangeId,
   { db with
       exchanges := db.exchanges ++
         [{ id := db.nextExchangeId, session_id := session_id,
            question := question, answer := answer,
            subject_category := subject_category,
            rating := none, feedback := none, timestamp := now }],
       nextExchangeId := db.nextExchangeId + 1 })

/-- The dict built for each session by `get_study_sessions`. -/
structure SessionInfo where
  id : Nat
  name : String
  created_at : Nat
  updated_at : Nat
deriving DecidableEq, Repr

/-- One insertion step of `ORDER BY updated_at DESC`. -/
def insertByUpdatedDesc (s : StudySessionRow) :
    List StudySessionRow → List StudySessionRow
  | [] => [s]
  | x :: xs =>
    if x.updated_at < s.updated_at then s :: x :: xs
    else x :: insertByUpdatedDesc s xs

/-- `ORDER BY updated_at DESC` as an insertion sort. -/
def orderByUpdatedDesc : List StudySessionRow → List StudySessionRow
  | [] => []
  | x :: xs => insertByUpdatedDesc x (orderByUpdatedDesc xs)

/-- `get_study_sessions`: all sessions, most recently updated first. -/
def get_study_sessions (db : Database) : List SessionInfo :=
  (orderByUpdatedDesc db.sessions).map fun s =>
    { id := s.id, name := s.session_name,
      created_at := s.created_at, updated_at := s.updated_at }

/-- The dict built for each exchange by `get_chat_history`; `strftime` of the
timestamp is modelled by the timestamp itself. -/
structure ExchangeInfo where
  id : Nat
  question : String
  answer : String
  subject_category : Option String
  rating : Option Int
  feedback : Option String
  timestamp : Nat
deriving DecidableEq, Repr

/-- One insertion step of `ORDER BY timestamp ASC`. -/
def insertByTimestampAsc (e : ChatExchangeRow) :
    List ChatExchangeRow → List ChatExchangeRow
  | [] => [e]
  | x :: xs =>
    if e.timestamp < x.timestamp then e :: x :: xs
    else x :: insertByTimestampAsc e xs

/-- `ORDER BY timestamp ASC` as an insertion sort. -/
def orderByTimestampAsc : List ChatExchangeRow → List ChatExchangeRow
  | [] => []
  | x :: xs => insertByTimestampAsc x (orderByTimestampAsc xs)

/-- The dict `get_chat_history` builds from a row. -/
def exchangeInfoOf (e : ChatExchangeRow) : ExchangeInfo :=
  { id := e.id, question := e.question, answer := e.answer,
    subject_category := e.subject_category, rating := e.rating,
    feedback := e.feedback, timestamp := e.timestamp }

/-- `get_chat_history`: the exchanges of one session, oldest first. -/
def get_chat_history (db : Database) (session_id : Nat) : List ExchangeInfo :=
  (orderByTimestampAsc
    (db.exchanges.filter (fun e => e.session_id == session_id))).map
    exchangeInfoOf

/-- Python truthiness of an optional string (`if feedback:`): present and
non-empty. -/
def strTruthy : Option String → Bool
  | none => false
  | some s => !(s == "")

/-- The mutation `update_exchange_rating` performs on the row it found:
the rating is overwritten, the feedback only when truthy. -/
def applyRatingUpdate (rating : Int) (feedback : Option String)
    (e : ChatExchangeRow) : ChatExchangeRow :=
  { e with rating := some rating,
           feedback := if strTruthy feedback then feedback else e.feedback }

/-- Replace the first row whose id is `eid` (the row `.first()` returns). -/
def updateFirst (f : ChatExchangeRow → ChatExchangeRow) (eid : Nat) :
    List ChatExchangeRow → List ChatExchangeRow
  | [] => []
  | e :: es => if e.id == eid then f e :: es else e :: updateFirst f eid es

/-- `update_exchange_rating`: look the exchange up by id; when found set its
rating, set its feedback only when the argument is truthy, and report
success; otherwise report failure. -/
def update_exchange_rating (db : Database) (exchange_id : Nat) (rating : Int)
    (feedback : Option String := none) : Bool × Database :=
  match db.exchanges.find? (fun e => e.id == exchange_id) with
  | some _ =>
      (true,
       { db with
           exchanges :=
             updateFirst (applyRatingUpdate rating feedback) exchange_id
               db.exchanges })
  | none => (false, db)

/-- `delete_study_session`: inside one transaction delete every exchange of
the session, then the session itself, and commit; `commitOk` says whether the
storage backend raised, in which case the `except` branch rolls the whole
transaction back and reports failure. -/
def delete_study_session (commitOk : Bool) (db : Database) (session_id : Nat) :
    Bool × Database :=
  if commitOk then
    (true,
     { db with
         exchanges := db.exchanges.filter (fun e => !(e.session_id == session_id)),
         sessions := db.sessions.filter (fun s => !(s.id == session_id)) })
  else
    (false, db)

/-- The dict returned by `get_session_stats`. -/
structure SessionStats where
  total_sessions : Nat
  total_exchanges : Nat
  average_rating : Option ℚ
deriving DecidableEq, Repr

/-- Round half to even at integer precision (Python `round` on an exact
value). -/
def roundHalfEven (x : ℚ) : ℤ :=
  let f : ℤ := ⌊x⌋
  let r : ℚ := x - f
  if r < 1/2 then f
  else if 1/2 < r then f + 1
  else if f % 2 = 0 then f else f + 1

/-- Python `round(x, 2)`. -/
def round2 (x : ℚ) : ℚ := (roundHalfEven (100 * x) : ℚ) / 100

/-- `get_session_stats`: row counts and the average of the non-null ratings.
The source computes `round(avg_rating, 2) if avg_rating else None`, so both a
missing average (no rated exchange) and an average equal to zero fall to
`None`. -/
def get_session_stats (db : Database) : SessionStats :=
  let ratings := db.exchanges.filterMap (fun e => e.rating)
  let avg_rating : Option ℚ :=
    if ratings.length = 0 then none
    else some (mkRat ratings.sum ratings.length)
  { total_sessions := db.sessions.length,
    total_exchanges := db.exchanges.length,
    average_rating :=
      match avg_rating with
      | none => none
      | some a => if a ≠ 0 then some (round2 a) else none }

/-! ### src/app.py (export_session_notes) -/

/-- The `session_data` dict handed to `export_session_notes`: session name,
the rendering of its creation time, and the session's chat history. -/
structure SessionExport where
  name : String
  created_at : String
  history : List ExchangeInfo

/-- Python truthiness of the optional rating (`if exchange.get('rating'):`):
present and non-zero. -/
def ratingTruthy : Option Int → Bool
  | none => false
  | some r => !(r == 0)

/-- A string of `n` copies of `c` (Python `c * n`). -/
def repeatChar (c : Char) (n : Nat) : String := String.mk (List.replicate n c)

/-- The header lines `export_session_notes` writes before the loop. -/
def exportHeader (sd : SessionExport) : String :=
  "Study Session: " ++ sd.name ++ "\n" ++
  "Created: " ++ sd.created_at ++ "\n" ++
  repeatChar '=' 50 ++ "\n\n"

/-- The block the export loop writes for the exchange at (1-based) index
`i`: question, answer, then subject, rating glyph and feedback lines only
when truthy, the timestamp and a separator. -/
def exchangeBlock (i : Nat) (e : ExchangeInfo) : String :=
  "Question " ++ toString i ++ ":\n" ++ e.question ++ "\n\n" ++
  "Answer " ++ toString i ++ ":\n" ++ e.answer ++ "\n\n" ++
  (if strTruthy e.subject_category then
    "Subject: " ++ e.subject_category.getD "" ++ "\n" else "") ++
  (if ratingTruthy e.rating then
    "Rating: " ++ (if 0 < e.rating.getD 0 then "👍" else "👎") ++ "\n"
   else "") ++
  (if strTruthy e.feedback then
    "Feedback: " ++ e.feedback.getD "" ++ "\n" else "") ++
  "Time: " ++ toString e.timestamp ++ "\n" ++
  repeatChar '-' 30 ++ "\n\n"

/-- `export_session_notes`: the header followed by one block per exchange,
indices counted from 1 (`enumerate(history, 1)`), accumulated left to right
as the `StringIO` writes do. -/
def export_session_notes (sd : SessionExport) : String :=
  (sd.history.enumFrom 1).foldl
    (fun acc ie => acc ++ exchangeBlock ie.1 ie.2) (exportHeader sd)

/-! ### Helper lemmas about the persistence layer -/

theorem mem_insertByUpdatedDesc {x s : StudySessionRow}
    {l : List StudySessionRow} :
    x ∈ insertByUpdatedDesc s l ↔ x = s ∨ x ∈ l := by
  induction l with
  | nil => simp [insertByUpdatedDesc]
  | cons a t ih =>
    by_cases h : a.updated_at < s.updated_at
    · rw [insertByUpdatedDesc, if_pos h]
      simp
    · rw [insertByUpdatedDesc, if_neg h]
      simp [ih]
      tauto

theorem mem_orderByUpdatedDesc {x : StudySessionRow}
    {l : List StudySessionRow} :
    x ∈ orderByUpdatedDesc l ↔ x ∈ l := by
  induction l with
  | nil => simp [orderByUpdatedDesc]
  | cons a t ih => simp [orderByUpdatedDesc, mem_insertByUpdatedDesc, ih]

theorem mem_insertByTimestampAsc {x e : ChatExchangeRow}
    {l : List ChatExchangeRow} :
    x ∈ insertByTimestampAsc e l ↔ x = e ∨ x ∈ l := by
  induction l with
  | nil => simp [insertByTimestampAsc]
  | cons a t ih =>
    by_cases h : e.timestamp < a.timestamp
    · rw [insertByTimestampAsc, if_pos h]
      simp
    · rw [insertByTimestampAsc, if_neg h]
      simp [ih]
      tauto

theorem pairwise_insertByTimestampAsc {e : ChatExchangeRow}
    {l : List ChatExchangeRow}
    (h : List.Pairwise (fun a b => a.timestamp ≤ b.timestamp) l) :
    List.Pairwise (fun a b => a.timestamp ≤ b.timestamp)
      (insertByTimestampAsc e l) := by
  induction l with
  | nil => simp [insertByTimestampAsc]
  | cons a t ih =>
    obtain ⟨ha, ht⟩ := List.pairwise_cons.1 h
    by_cases hlt : e.timestamp < a.timestamp
    · rw [insertByTimestampAsc, if_pos hlt]
      refine List.pairwise_cons.2 ⟨?_, h⟩
      intro y hy
      rcases List.mem_cons.1 hy with rfl | hy
      · exact Nat.le_of_lt hlt
      · exact Nat.le_trans (Nat.le_of_lt hlt) (ha y hy)
    · rw [insertByTimestampAsc, if_neg hlt]
      refine List.pairwise_cons.2 ⟨?_, ih ht⟩
      intro y hy
      rcases mem_insertByTimestampAsc.1 hy with rfl | hy
      · exact Nat.le_of_not_lt hlt
      · exact ha y hy

theorem pairwise_orderByTimestampAsc (l : List ChatExchangeRow) :
    List.Pairwise (fun a b => a.timestamp ≤ b.timestamp)
      (orderByTimestampAsc l) := by
  induction l with
  | nil => simp [orderByTimestampAsc]
  | cons a t ih => exact pairwise_insertByTimestampAsc ih

theorem orderByTimestampAsc_of_sorted {l : List ChatExchangeRow}
    (h : List.Pairwise (fun a b => a.timestamp < b.timestamp) l) :
    orderByTimestampAsc l = l := by
  induction l with
  | nil => rfl
  | cons a t ih =>
    obtain ⟨ha, ht⟩ := List.pairwise_cons.1 h
    rw [orderByTimestampAsc, ih ht]
    cases t with
    | nil => rfl
    | cons b u => rw [insertByTimestampAsc, if_pos (ha b (by simp))]

theorem updateFirst_split (f : ChatExchangeRow → ChatExchangeRow) (eid : Nat)
    {l : List ChatExchangeRow} (hx : ∃ x ∈ l, x.id = eid) :
    ∃ pre e post, l = pre ++ e :: post ∧ (∀ y ∈ pre, y.id ≠ eid) ∧
      e.id = eid ∧ updateFirst f eid l = pre ++ f e :: post := by
  induction l with
  | nil => simp at hx
  | cons a t ih =>
    by_cases ha : a.id = eid
    · exact ⟨[], a, t, by simp, by simp, ha, by simp [updateFirst, ha]⟩
    · obtain ⟨x, hxl, hxid⟩ := hx
      have hxt : x ∈ t := by
        rcases List.mem_cons.1 hxl with rfl | hmem
        · exact absurd hxid ha
        · exact hmem
      obtain ⟨pre, e, post, h1, h2, h3, h4⟩ := ih ⟨x, hxt, hxid⟩
      refine ⟨a :: pre, e, post, by simp [h1], ?_, h3,
        by simp [updateFirst, ha, h4]⟩
      intro y hy
      rcases List.mem_cons.1 hy with rfl | hy
      · exact ha
      · exact h2 y hy

theorem applyRatingUpdate_id (r : Int) (fb : Option String)
    (e : ChatExchangeRow) : (applyRatingUpdate r fb e).id = e.id := rfl

theorem applyRatingUpdate_idem (r : Int) (fb : Option String)
    (e : ChatExchangeRow) :
    applyRatingUpdate r fb (applyRatingUpdate r fb e) =
      applyRatingUpdate r fb e := by
  unfold applyRatingUpdate
  by_cases h : strTruthy fb = true <;> simp [h]

theorem updateFirst_idem (f : ChatExchangeRow → ChatExchangeRow) (eid : Nat)
    (hid : ∀ e, (f e).id = e.id) (hf : ∀ e, f (f e) = f e)
    (l : List ChatExchangeRow) :
    updateFirst f eid (updateFirst f eid l) = updateFirst f eid l := by
  induction l with
  | nil => rfl
  | cons a t ih =>
    by_cases ha : a.id = eid
    · simp [updateFirst, ha, hid, hf]
    · simp [updateFirst, ha, ih]

theorem find?_updateFirst_isSome (f : ChatExchangeRow → ChatExchangeRow)
    (eid : Nat) (hid : ∀ e, (f e).id = e.id) (l : List ChatExchangeRow) :
    ((updateFirst f eid l).find? (fun e => e.id == eid)).isSome =
      (l.find? (fun e => e.id == eid)).isSome := by
  induction l with
  | nil => rfl
  | cons a t ih =>
    by_cases ha : a.id = eid
    · simp [updateFirst, ha, List.find?_cons, hid]
    · simp [updateFirst, ha, List.find?_cons, ih]

/-! ### Claim C2 (code bug: a zero average is reported as missing) -/

/-- The spec's stats scenario, built through the persistence operations:
session S1 with two exchanges rated +1 and -1, then session S2 with no
exchanges. -/
def statsScenarioDb : Database :=
  let d1 := (create_study_session emptyDatabase 10 "S1").2
  let d2 := (save_chat_exchange d1 11 1 "q1" "a1").2
  let d3 := (save_chat_exchange d2 12 1 "q2" "a2").2
  let d4 := (update_exchange_rating d3 1 1).2
  let d5 := (update_exchange_rating d4 2 (-1)).2
  (create_study_session d5 13 "S2").2

/-- Claim C2: in the spec's own scenario (S1 with ratings +1 and -1, S2
empty) the code reports 2 sessions and 2 exchanges but NO average rating:
non-null ratings exist, their mean is 0, and `round(avg_rating, 2) if
avg_rating else None` treats the zero mean as falsy and yields `None`,
contradicting the claimed average of 0.0. -/
theorem C2_stats_zero_average_dropped :
    get_session_stats statsScenarioDb =
      { total_sessions := 2, total_exchanges := 2, average_rating := none } ∧
    statsScenarioDb.exchanges.filterMap (fun e => e.rating) = [1, -1] := by
  decide

/-! ### Claim C4 (deleting a session removes it and its exchanges, atomically) -/

/-- Claim C4: `delete_study_session` returns the commit outcome; on success
no exchange of the session remains, the session row is gone, its history
reads back empty and it is no longer listed; on failure the rollback leaves
the database exactly as it was. -/
theorem C4_delete_session_atomic (ok : Bool) (db : Database) (sid : Nat) :
    (delete_study_session ok db sid).1 = ok ∧
    (ok = true →
      (∀ e ∈ (delete_study_session ok db sid).2.exchanges,
        e.session_id ≠ sid) ∧
      (∀ s ∈ (delete_study_session ok db sid).2.sessions, s.id ≠ sid) ∧
      get_chat_history (delete_study_session ok db sid).2 sid = [] ∧
      (∀ s ∈ get_study_sessions (delete_study_session ok db sid).2,
        s.id ≠ sid)) ∧
    (ok = false → (delete_study_session ok db sid).2 = db) := by
  refine ⟨?_, ?_, ?_⟩
  · cases ok <;> simp [delete_study_session]
  · rintro rfl
    rw [delete_study_session, if_pos rfl]
    refine ⟨?_, ?_, ?_, ?_⟩
    · intro e he
      have := (List.mem_filter.1 he).2
      simpa using this
    · intro s hs
      have := (List.mem_filter.1 hs).2
      simpa using this
    · have hnil : (db.exchanges.filter
          (fun e => !(e.session_id == sid))).filter
          (fun e => e.session_id == sid) = [] := by
        refine List.filter_eq_nil_iff.2 ?_
        intro a ha
        have := (List.mem_filter.1 ha).2
        simpa using this
      rw [get_chat_history]
      simp only [hnil]
      rfl
    · intro s hs
      rw [get_study_sessions] at hs
      obtain ⟨row, hrow, rfl⟩ := List.mem_map.1 hs
      have hmem := mem_orderByUpdatedDesc.1 hrow
      have := (List.mem_filter.1 hmem).2
      simpa using this
  · rintro rfl
    rw [delete_study_session, if_neg (by simp)]

/-! ### Claim C10 (deleting a nonexistent session succeeds and is a no-op) -/

/-- Claim C10: when no session row and no exchange row carries `sid`, the two
deletions remove nothing, so the call returns success with the database
unchanged; the returned flag is false exactly when the backend raised. -/
theorem C10_delete_nonexistent (db : Database) (sid : Nat)
    (h1 : ∀ s ∈ db.sessions, s.id ≠ sid)
    (h2 : ∀ e ∈ db.exchanges, e.session_id ≠ sid) :
    delete_study_session true db sid = (true, db) ∧
    ∀ ok, (delete_study_session ok db sid).1 = ok := by
  constructor
  · rw [delete_study_session, if_pos rfl]
    have hs : db.sessions.filter (fun s => !(s.id == sid)) = db.sessions :=
      List.filter_eq_self.2 (fun a ha => by simpa using h1 a ha)
    have he : db.exchanges.filter (fun e => !(e.session_id == sid)) =
        db.exchanges :=
      List.filter_eq_self.2 (fun a ha => by simpa using h2 a ha)
    rw [hs, he]
  · intro ok
    cases ok <;> simp [delete_study_session]

/-- A concrete database holding session 1 (with one exchange) and no
session 5. -/
def dbWithoutSession5 : Database :=
  { sessions := [{ id := 1, session_name := "A", created_at := 0,
                   updated_at := 0 }],
    exchanges := [{ id := 1, session_id := 1, question := "q", answer := "a",
                    subject_category := none, rating := none,
                    feedback := none, timestamp := 0 }],
    nextSessionId := 2, nextExchangeId := 2 }

/-- Witness for C10 at a concrete database: deleting the absent session 5
returns success and changes nothing. -/
theorem C10_delete_nonexistent_witness :
    delete_study_session true dbWithoutSession5 5 = (true, dbWithoutSession5) :=
  (C10_delete_nonexistent dbWithoutSession5 5 (by decide) (by decide)).1

/-! ### Claim C5 (updating a rating) -/

/-- Claim C5: when no exchange has the id, `update_exchange_rating` reports
failure and leaves the database untouched; when one exists it reports
success, keeps the sessions, and rewrites exactly the first matching row:
its rating is overwritten and its feedback replaced only when the supplied
feedback is truthy (present and non-empty). -/
theorem C5_update_rating (db : Database) (eid : Nat) (r : Int)
    (fb : Option String) :
    ((∀ e ∈ db.exchanges, e.id ≠ eid) →
      update_exchange_rating db eid r fb = (false, db)) ∧
    ((∃ x ∈ db.exchanges, x.id = eid) →
      (update_exchange_rating db eid r fb).1 = true ∧
      (update_exchange_rating db eid r fb).2.sessions = db.sessions ∧
      ∃ pre e post,
        db.exchanges = pre ++ e :: post ∧ (∀ y ∈ pre, y.id ≠ eid) ∧
        e.id = eid ∧
        (update_exchange_rating db eid r fb).2.exchanges =
          pre ++ { e with rating := some r,
                          feedback := if strTruthy fb then fb
                                      else e.feedback } :: post) := by
  constructor
  · intro h
    have hnone : db.exchanges.find? (fun e => e.id == eid) = none :=
      List.find?_eq_none.2 (fun x hx => by simpa using h x hx)
    rw [update_exchange_rating, hnone]
  · intro hx
    cases hfind : db.exchanges.find? (fun e => e.id == eid) with
    | none =>
      obtain ⟨x, hmem, hid⟩ := hx
      have := List.find?_eq_none.1 hfind x hmem
      simp [hid] at this
    | some a =>
      obtain ⟨pre, e, post, h1, h2, h3, h4⟩ :=
        updateFirst_split (applyRatingUpdate r fb) eid hx
      rw [update_exchange_rating, hfind]
      refine ⟨rfl, rfl, pre, e, post, h1, h2, h3, ?_⟩
      simpa [applyRatingUpdate] using h4

/-- A concrete database with two exchanges, ids 1 and 2. -/
def dbTwoExchanges : Database :=
  { sessions := [{ id := 1, session_name := "A", created_at := 0,
                   updated_at := 0 }],
    exchanges := [{ id := 1, session_id := 1, question := "q1",
                    answer := "a1", subject_category := none, rating := none,
                    feedback := none, timestamp := 0 },
                  { id := 2, session_id := 1, question := "q2",
                    answer := "a2", subject_category := none, rating := none,
                    feedback := none, timestamp := 1 }],
    nextSessionId := 2, nextExchangeId := 3 }

/-- Witness for C5 at a concrete database: rating exchange 2 succeeds and
keeps the sessions; rating the absent exchange 9 fails and is a no-op. -/
theorem C5_update_rating_witness :
    (update_exchange_rating dbTwoExchanges 2 1 (some "good")).1 = true ∧
    (update_exchange_rating dbTwoExchanges 2 1 (some "good")).2.sessions =
      dbTwoExchanges.sessions ∧
    update_exchange_rating dbTwoExchanges 9 1 none = (false, dbTwoExchanges) :=
  ⟨((C5_update_rating dbTwoExchanges 2 1 (some "good")).2
      ⟨{ id := 2, session_id := 1, question := "q2", answer := "a2",
         subject_category := none, rating := none, feedback := none,
         timestamp := 1 }, by decide, rfl⟩).1,
   ((C5_update_rating dbTwoExchanges 2 1 (some "good")).2
      ⟨{ id := 2, session_id := 1, question := "q2", answer := "a2",
         subject_category := none, rating := none, feedback := none,
         timestamp := 1 }, by decide, rfl⟩).2.1,
   (C5_update_rating dbTwoExchanges 9 1 none).1 (by decide)⟩

/-! ### Claim C6 (updating a rating twice equals updating it once) -/

/-- Claim C6: `update_exchange_rating` is idempotent on the persisted state:
repeating the call with the same exchange id, rating and feedback leaves
the database exactly as after the first call. -/
theorem C6_update_rating_idempotent (db : Database) (eid : Nat) (r : Int)
    (fb : Option String) :
    (update_exchange_rating
        (update_exchange_rating db eid r fb).2 eid r fb).2 =
      (update_exchange_rating db eid r fb).2 := by
  cases hfind : db.exchanges.find? (fun e => e.id == eid) with
  | none =>
    have hd1 : (update_exchange_rating db eid r fb).2 = db := by
      rw [update_exchange_rating, hfind]
    rw [hd1, update_exchange_rating, hfind]
  | some a =>
    have hd1 : (update_exchange_rating db eid r fb).2 =
        { db with exchanges :=
            updateFirst (applyRatingUpdate r fb) eid db.exchanges } := by
      rw [update_exchange_rating, hfind]
    have hsome :
        ((updateFirst (applyRatingUpdate r fb) eid db.exchanges).find?
          (fun e => e.id == eid)).isSome = true := by
      rw [find?_updateFirst_isSome _ _ (applyRatingUpdate_id r fb), hfind]
      rfl
    rw [hd1]
    cases hfind2 : (updateFirst (applyRatingUpdate r fb) eid
        db.exchanges).find? (fun e => e.id == eid) with
    | none =>
      rw [hfind2] at hsome
      simp at hsome
    | some b =>
      simp only [update_exchange_rating, hfind2]
      rw [updateFirst_idem (applyRatingUpdate r fb) eid
        (applyRatingUpdate_id r fb) (applyRatingUpdate_idem r fb)
        db.exchanges]

/-! ### Claim C7 (history preserves per-session creation order) -/

/-- Claim C7: `get_chat_history` always returns exchanges in ascending
timestamp order, and when the session's stored exchanges carry strictly
increasing timestamps (exchanges recorded one after the other), the history
is exactly those exchanges in insertion order, whatever rows of other
sessions sit between them. -/
theorem C7_history_preserves_order (db : Database) (sid : Nat) :
    List.Pairwise (fun a b => a.timestamp ≤ b.timestamp)
      (get_chat_history db sid) ∧
    (List.Pairwise (fun a b => a.timestamp < b.timestamp)
        (db.exchanges.filter (fun e => e.session_id == sid)) →
      get_chat_history db sid =
        (db.exchanges.filter (fun e => e.session_id == sid)).map
          exchangeInfoOf) := by
  constructor
  · rw [get_chat_history]
    exact List.pairwise_map.2 (pairwise_orderByTimestampAsc _)
  · intro h
    rw [get_chat_history, orderByTimestampAsc_of_sorted h]

/-- The exchange-ordering scenario: exchanges E1, E2, E3 recorded in that
order for session 1, with exchanges for session 2 interleaved between
them, all built through the persistence operations. -/
def orderingScenarioDb : Database :=
  let d1 := (create_study_session emptyDatabase 0 "A").2
  let d2 := (create_study_session d1 1 "B").2
  let d3 := (save_chat_exchange d2 2 1 "e1q" "e1a").2
  let d4 := (save_chat_exchange d3 3 2 "x1q" "x1a").2
  let d5 := (save_chat_exchange d4 4 1 "e2q" "e2a").2
  let d6 := (save_chat_exchange d5 5 2 "x2q" "x2a").2
  (save_chat_exchange d6 6 1 "e3q" "e3a").2

/-- Witness for C7 at the concrete scenario: the history of session 1 is
E1, E2, E3 in recording order despite the interleaved inserts. -/
theorem C7_history_preserves_order_witness :
    get_chat_history orderingScenarioDb 1 =
      [{ id := 1, question := "e1q", answer := "e1a",
         subject_category := none, rating := none, feedback := none,
         timestamp := 2 },
       { id := 3, question := "e2q", answer := "e2a",
         subject_category := none, rating := none, feedback := none,
         timestamp := 4 },
       { id := 5, question := "e3q", answer := "e3a",
         subject_category := none, rating := none, feedback := none,
         timestamp := 6 }] :=
  ((C7_history_preserves_order orderingScenarioDb 1).2 (by decide)).trans
    (by decide)

/-! ### Claim C8 (structure of an exported session) -/

/-- Concatenation of a list of strings, in order. -/
def concatStrings : List String → String
  | [] => ""
  | s :: t => s ++ concatStrings t

theorem foldl_append_eq_concat (g : Nat × ExchangeInfo → String) :
    ∀ (l : List (Nat × ExchangeInfo)) (acc : String),
      l.foldl (fun a p => a ++ g p) acc = acc ++ concatStrings (l.map g) := by
  intro l
  induction l with
  | nil =>
    intro acc
    simp [concatStrings]
  | cons p t ih =>
    intro acc
    rw [List.foldl_cons, ih, List.map_cons]
    rw [concatStrings, String.append_assoc]

theorem exchangeBlock_starts_with_question (i : Nat) (e : ExchangeInfo) :
    ∃ rest, exchangeBlock i e =
      "Question " ++ toString i ++ ":\n" ++ rest := by
  refine ⟨e.question ++ ("\n\n" ++
    ("Answer " ++ (toString i ++ (":\n" ++ (e.answer ++ ("\n\n" ++
    ((if strTruthy e.subject_category then
        "Subject: " ++ e.subject_category.getD "" ++ "\n" else "") ++
     ((if ratingTruthy e.rating then
        "Rating: " ++ (if 0 < e.rating.getD 0 then "👍" else "👎") ++ "\n"
       else "") ++
      ((if strTruthy e.feedback then
          "Feedback: " ++ e.feedback.getD "" ++ "\n" else "") ++
       ("Time: " ++ (toString e.timestamp ++ ("\n" ++
        (repeatChar '-' 30 ++ "\n\n"))))))))))))), ?_⟩
  rw [exchangeBlock]
  simp only [String.append_assoc]

/-- Claim C8: exporting a session with no exchanges yields exactly the
header (name, creation time, separator) and nothing else; exporting N
exchanges yields the header followed by exactly N blocks, the i-th of which
begins with its 1-based index line `Question i:`. -/
theorem C8_export_blocks (sd : SessionExport) :
    (sd.history = [] → export_session_notes sd = exportHeader sd) ∧
    ∃ bs : List String,
      export_session_notes sd = exportHeader sd ++ concatStrings bs ∧
      bs.length = sd.history.length ∧
      ∀ i, ∀ h : i < bs.length, ∃ rest,
        bs[i] = "Question " ++ toString (i + 1) ++ ":\n" ++ rest := by
  constructor
  · intro h
    rw [export_session_notes, h]
    rfl
  · refine ⟨(sd.history.enumFrom 1).map (fun p => exchangeBlock p.1 p.2),
      ?_, ?_, ?_⟩
    · rw [export_session_notes, foldl_append_eq_concat]
    · simp [List.enumFrom_length]
    · intro i h
      have hi3 : i < sd.history.length := by
        simpa [List.enumFrom_length] using h
      rw [List.getElem_map, List.getElem_enumFrom]
      obtain ⟨r, hr⟩ :=
        exchangeBlock_starts_with_question (1 + i) (sd.history[i])
      refine ⟨r, ?_⟩
      show exchangeBlock (1 + i) (sd.history[i]) = _
      rw [hr, Nat.add_comm 1 i]

/-- A concrete session export with no exchanges. -/
def emptySessionExport : SessionExport :=
  { name := "Algebra review", created_at := "2024-01-01 00:00:00",
    history := [] }

/-- Witness for C8 at a concrete session with no exchanges: the export is
exactly the header. -/
theorem C8_export_blocks_witness :
    export_session_notes emptySessionExport = exportHeader emptySessionExport :=
  (C8_export_blocks emptySessionExport).1 rfl

/-! ### Claim C9 (sample classifications) -/

/-- Claim C9: the classifier maps the spec's sample questions to
Mathematics, Science and Geography respectively, and a question without
domain keywords to no label. -/
theorem C9_sample_classifications :
    categorize_question "What is the quadratic formula?" =
      some "Mathematics" ∧
    categorize_question "Explain photosynthesis" = some "Science" ∧
    categorize_question "What is the capital of France?" =
      some "Geography" ∧
    categorize_question "Hello there" = none := by
  refine ⟨?_, ?_, ?_, ?_⟩ <;> decide

/-! ### Helper lemmas about the classifier -/

/-- Total number of whole-word keyword matches of a category (the match
counts without the long-keyword bonus points). -/
def categoryMatches (q : List Char) (kws : List String) : Nat :=
  kws.foldl (fun acc kw => acc + countOccs (lowerChars kw) q) 0

theorem foldl_add_eq_sum {α : Type} (g : α → Nat) :
    ∀ (l : List α) (n : Nat),
      l.foldl (fun acc x => acc + g x) n = n + (l.map g).sum := by
  intro l
  induction l with
  | nil =>
    intro n
    simp
  | cons a t ih =>
    intro n
    rw [List.foldl_cons, ih, List.map_cons, List.sum_cons]
    omega

theorem categoryScore_eq_sum (q : List Char) (kws : List String) :
    categoryScore q kws = (kws.map (keywordScore q)).sum := by
  rw [categoryScore, foldl_add_eq_sum]
  omega

theorem categoryMatches_eq_sum (q : List Char) (kws : List String) :
    categoryMatches q kws =
      (kws.map (fun kw => countOccs (lowerChars kw) q)).sum := by
  rw [categoryMatches, foldl_add_eq_sum]
  omega

theorem keywordScore_eq_zero {q : List Char} {kw : String}
    (h : countOccs (lowerChars kw) q = 0) : keywordScore q kw = 0 := by
  simp [keywordScore, h]

theorem countOccs_le_keywordScore (q : List Char) (kw : String) :
    countOccs (lowerChars kw) q ≤ keywordScore q kw := by
  rw [keywordScore]
  exact Nat.le_add_right _ _

theorem categoryMatches_le_categoryScore (q : List Char) (kws : List String) :
    categoryMatches q kws ≤ categoryScore q kws := by
  rw [categoryScore_eq_sum, categoryMatches_eq_sum]
  exact List.sum_le_sum (fun kw _ => countOccs_le_keywordScore q kw)

theorem categoryScore_eq_zero_of_matches_zero {q : List Char}
    {kws : List String} (h : categoryMatches q kws = 0) :
    categoryScore q kws = 0 := by
  rw [categoryMatches_eq_sum] at h
  rw [categoryScore_eq_sum]
  refine List.sum_eq_zero ?_
  intro x hx
  obtain ⟨kw, hkw, rfl⟩ := List.mem_map.1 hx
  refine keywordScore_eq_zero (List.sum_eq_zero_iff.1 h _ ?_)
  exact List.mem_map_of_mem _ hkw

theorem countOccs_nil (kw : List Char) : countOccs kw [] = 0 := rfl

theorem keywordScore_nil (kw : String) : keywordScore [] kw = 0 := by
  simp [keywordScore, countOccs_nil]

theorem categoryScore_nil (kws : List String) : categoryScore [] kws = 0 := by
  rw [categoryScore_eq_sum]
  refine List.sum_eq_zero ?_
  intro x hx
  obtain ⟨kw, _, rfl⟩ := List.mem_map.1 hx
  exact keywordScore_nil kw

theorem filterMap_pos_eq (q : List Char) :
    ∀ tbl : List (String × List String),
      tbl.filterMap (fun e =>
        let score := categoryScore q e.2
        if 0 < score then some (e.1, score) else none) =
      (tbl.map (fun e => (e.1, categoryScore q e.2))).filter
        (fun y => decide (0 < y.2)) := by
  intro tbl
  induction tbl with
  | nil => rfl
  | cons a t ih =>
    rw [List.filterMap_cons, List.map_cons, List.filter_cons]
    by_cases h : 0 < categoryScore q a.2
    · simp [h, ih]
    · simp [h, ih]

theorem category_scores_eq (q : List Char) :
    category_scores q =
      (SUBJECT_CATEGORIES.map (fun e => (e.1, categoryScore q e.2))).filter
        (fun y => decide (0 < y.2)) := by
  rw [category_scores, filterMap_pos_eq]

theorem pos_of_mem_category_scores {q : List Char} {y : String × Nat}
    (h : y ∈ category_scores q) : 0 < y.2 := by
  rw [category_scores_eq] at h
  simpa using (List.mem_filter.1 h).2

/-- `pyMax` returns the first element of `cur :: xs` attaining the maximal
score: everything before it is strictly smaller, everything after is no
larger. -/
theorem pyMax_split (xs : List (String × Nat)) (cur : String × Nat) :
    ∃ l1 l2, cur :: xs = l1 ++ pyMax cur xs :: l2 ∧
      (∀ y ∈ l1, y.2 < (pyMax cur xs).2) ∧
      (∀ y ∈ l2, y.2 ≤ (pyMax cur xs).2) := by
  induction xs generalizing cur with
  | nil => exact ⟨[], [], rfl, by simp, by simp⟩
  | cons y ys ih =>
    by_cases h : cur.2 < y.2
    · have hpm : pyMax cur (y :: ys) = pyMax y ys := by
        rw [pyMax, if_pos h]
      obtain ⟨l1, l2, he, h1, h2⟩ := ih y
      have hylt : cur.2 < (pyMax y ys).2 := by
        cases l1 with
        | nil =>
          have hy : y = pyMax y ys := by
            have := he
            rw [List.nil_append] at this
            exact (List.cons.injEq _ _ _ _ ▸ this).1
          have hy2 := congrArg Prod.snd hy
          simp only [] at hy2
          omega
        | cons a t =>
          have hya : y = a := by
            have := he
            rw [List.cons_append] at this
            exact (List.cons.injEq _ _ _ _ ▸ this).1
          have hy2 : y.2 < (pyMax y ys).2 := by
            have := h1 a (by simp)
            rw [← hya] at this
            exact this
          omega
      refine ⟨cur :: l1, l2, ?_, ?_, by rw [hpm]; exact h2⟩
      · rw [hpm, List.cons_append]
        rw [← he]
      · intro z hz
        rw [hpm]
        rcases List.mem_cons.1 hz with rfl | hz
        · exact hylt
        · exact h1 z hz
    · have hpm : pyMax cur (y :: ys) = pyMax cur ys := by
        rw [pyMax, if_neg h]
      obtain ⟨l1, l2, he, h1, h2⟩ := ih cur
      cases l1 with
      | nil =>
        rw [List.nil_append] at he
        have hcur : cur = pyMax cur ys := (List.cons.injEq _ _ _ _ ▸ he).1
        have hl2 : ys = l2 := (List.cons.injEq _ _ _ _ ▸ he).2
        refine ⟨[], y :: ys, ?_, by simp, ?_⟩
        · rw [List.nil_append, hpm, ← hcur]
        · intro z hz
          rw [hpm, ← hcur]
          rcases List.mem_cons.1 hz with rfl | hz
          · omega
          · exact hcur ▸ h2 z (hl2 ▸ hz)
      | cons a t =>
        rw [List.cons_append] at he
        have hca : cur = a := (List.cons.injEq _ _ _ _ ▸ he).1
        have hys : ys = t ++ pyMax cur ys :: l2 :=
          (List.cons.injEq _ _ _ _ ▸ he).2
        have hcurlt : cur.2 < (pyMax cur ys).2 := by
          have := h1 a (by simp)
          rw [← hca] at this
          exact this
        refine ⟨cur :: y :: t, l2, ?_, ?_, by rw [hpm]; exact h2⟩
        · rw [hpm, List.cons_append, List.cons_append, ← hys]
        · intro z hz
          rw [hpm]
          rcases List.mem_cons.1 hz with rfl | hz
          · exact hcurlt
          rcases List.mem_cons.1 hz with rfl | hz
          · omega
          · exact h1 z (List.mem_cons_of_mem _ hz)

/-- Two first-maximum positions of the same list carry the same element. -/
theorem firstMax_unique :
    ∀ (l1 : List (String × Nat)) {l1x l2 l2x : List (String × Nat)}
      {r rx : String × Nat},
      l1 ++ r :: l2 = l1x ++ rx :: l2x →
      (∀ y ∈ l1, y.2 < r.2) → (∀ y ∈ l2, y.2 ≤ r.2) →
      (∀ y ∈ l1x, y.2 < rx.2) → (∀ y ∈ l2x, y.2 ≤ rx.2) →
      r = rx := by
  intro l1
  induction l1 with
  | nil =>
    intro l1x l2 l2x r rx he h1 h2 h1x h2x
    cases l1x with
    | nil =>
      rw [List.nil_append, List.nil_append] at he
      exact (List.cons.injEq _ _ _ _ ▸ he).1
    | cons a t =>
      rw [List.nil_append, List.cons_append] at he
      have hra : r = a := (List.cons.injEq _ _ _ _ ▸ he).1
      have hl2 : l2 = t ++ rx :: l2x := (List.cons.injEq _ _ _ _ ▸ he).2
      have hup : rx.2 ≤ r.2 :=
        h2 rx (by rw [hl2]; exact List.mem_append_right _ (by simp))
      have hdown : r.2 < rx.2 := by
        have := h1x a (by simp)
        rw [← hra] at this
        exact this
      omega
  | cons a t ih =>
    intro l1x l2 l2x r rx he h1 h2 h1x h2x
    cases l1x with
    | nil =>
      rw [List.nil_append, List.cons_append] at he
      have hra : rx = a := ((List.cons.injEq _ _ _ _ ▸ he).1).symm
      have hl2 : l2x = t ++ r :: l2 := ((List.cons.injEq _ _ _ _ ▸ he).2).symm
      have hup : r.2 ≤ rx.2 :=
        h2x r (by rw [hl2]; exact List.mem_append_right _ (by simp))
      have hdown : rx.2 < r.2 := by
        have := h1 a (by simp)
        rw [← hra] at this
        exact this
      omega
    | cons b u =>
      rw [List.cons_append, List.cons_append] at he
      have htail : t ++ r :: l2 = u ++ rx :: l2x :=
        (List.cons.injEq _ _ _ _ ▸ he).2
      exact ih htail (fun y hy => h1 y (List.mem_cons_of_mem _ hy)) h2
        (fun y hy => h1x y (List.mem_cons_of_mem _ hy)) h2x

/-- A split of a filtered list lifts to a split of the original list. -/
theorem filter_split {α : Type} (p : α → Bool) :
    ∀ (l f1 f2 : List α) (x : α), l.filter p = f1 ++ x :: f2 →
      ∃ l1 l2, l = l1 ++ x :: l2 ∧ l1.filter p = f1 ∧ l2.filter p = f2 := by
  intro l
  induction l with
  | nil =>
    intro f1 f2 x he
    rw [List.filter_nil] at he
    exact absurd he.symm (List.append_ne_nil_of_right_ne_nil _ (by simp))
  | cons a t ih =>
    intro f1 f2 x he
    by_cases hp : p a
    · rw [List.filter_cons_of_pos hp] at he
      cases f1 with
      | nil =>
        rw [List.nil_append] at he
        have hxa : a = x := (List.cons.injEq _ _ _ _ ▸ he).1
        have hft : t.filter p = f2 := (List.cons.injEq _ _ _ _ ▸ he).2
        exact ⟨[], t, by rw [List.nil_append, hxa], by simp, hft⟩
      | cons b u =>
        rw [List.cons_append] at he
        have hab : a = b := (List.cons.injEq _ _ _ _ ▸ he).1
        have htail : t.filter p = u ++ x :: f2 :=
          (List.cons.injEq _ _ _ _ ▸ he).2
        obtain ⟨l1, l2, h1, h2, h3⟩ := ih u f2 x htail
        refine ⟨a :: l1, l2, by rw [h1, List.cons_append], ?_, h3⟩
        rw [List.filter_cons_of_pos hp, h2, hab]
    · rw [List.filter_cons_of_neg hp] at he
      obtain ⟨l1, l2, h1, h2, h3⟩ := ih f1 f2 x he
      refine ⟨a :: l1, l2, by rw [h1, List.cons_append], ?_, h3⟩
      rw [List.filter_cons_of_neg hp, h2]

/-- A split of a mapped list lifts to a split of the original list. -/
theorem map_split {α β : Type} (f : α → β) :
    ∀ (l : List α) (m1 m2 : List β) (x : β), l.map f = m1 ++ x :: m2 →
      ∃ t1 e t2, l = t1 ++ e :: t2 ∧ t1.map f = m1 ∧ f e = x ∧
        t2.map f = m2 := by
  intro l
  induction l with
  | nil =>
    intro m1 m2 x he
    rw [List.map_nil] at he
    exact absurd he.symm (List.append_ne_nil_of_right_ne_nil _ (by simp))
  | cons a t ih =>
    intro m1 m2 x he
    rw [List.map_cons] at he
    cases m1 with
    | nil =>
      rw [List.nil_append] at he
      have hfa : f a = x := (List.cons.injEq _ _ _ _ ▸ he).1
      have hft : t.map f = m2 := (List.cons.injEq _ _ _ _ ▸ he).2
      exact ⟨[], a, t, by rw [List.nil_append], by simp, hfa, hft⟩
    | cons b u =>
      rw [List.cons_append] at he
      have hab : f a = b := (List.cons.injEq _ _ _ _ ▸ he).1
      have htail : t.map f = u ++ x :: m2 := (List.cons.injEq _ _ _ _ ▸ he).2
      obtain ⟨t1, e, t2, h1, h2, h3, h4⟩ := ih u m2 x htail
      refine ⟨a :: t1, e, t2, by rw [h1, List.cons_append], ?_, h3, h4⟩
      rw [List.map_cons, h2, hab]

/-- Looking a category up in a table with distinct names finds its keyword
list wherever it sits. -/
theorem lookup_of_split :
    ∀ (t1 : List (String × List String)) {t2 : List (String × List String)}
      {c : String} {kws : List String},
      ((t1 ++ (c, kws) :: t2).map Prod.fst).Nodup →
      (t1 ++ (c, kws) :: t2).lookup c = some kws := by
  intro t1
  induction t1 with
  | nil =>
    intro t2 c kws _
    rw [List.nil_append]
    simp [List.lookup_cons]
  | cons a t ih =>
    intro t2 c kws hnd
    obtain ⟨k, v⟩ := a
    rw [List.cons_append, List.map_cons] at hnd
    have hk : k ∉ ((t ++ (c, kws) :: t2).map Prod.fst) :=
      (List.nodup_cons.1 hnd).1
    have hkc : (c == k) = false := by
      rw [beq_eq_false_iff_ne]
      intro hck
      apply hk
      rw [← hck]
      have hmem : ((c, kws) : String × List String) ∈ t ++ (c, kws) :: t2 :=
        List.mem_append_right _ (by simp)
      exact List.mem_map_of_mem Prod.fst hmem
    rw [List.cons_append, List.lookup_cons, hkc]
    exact ih (List.nodup_cons.1 hnd).2

/-- Characterization of `categorize_question`: it answers `some c` exactly
when `c` sits in the category table with a positive score that no category
beats and that beats every earlier-listed category strictly, and the
confidence gate passes: score at least 2, or score exactly 1 with some
keyword of the category longer than 6 characters occurring as a substring
of the lower-cased question. -/
theorem categorize_spec (q c : String) :
    categorize_question q = some c ↔
    ∃ kws t1 t2,
      SUBJECT_CATEGORIES = t1 ++ (c, kws) :: t2 ∧
      0 < categoryScore (lowerChars q) kws ∧
      (∀ e ∈ t1, categoryScore (lowerChars q) e.2 <
        categoryScore (lowerChars q) kws) ∧
      (∀ e ∈ t2, categoryScore (lowerChars q) e.2 ≤
        categoryScore (lowerChars q) kws) ∧
      (2 ≤ categoryScore (lowerChars q) kws ∨
        (categoryScore (lowerChars q) kws = 1 ∧
          ∃ kw ∈ kws, 6 < kw.length ∧
            isSubstrOf (lowerChars kw) (lowerChars q) = true)) := by
  by_cases hq : q.length = 0
  · rw [categorize_question, if_pos hq]
    constructor
    · intro h
      exact absurd h (by simp)
    · rintro ⟨kws, t1, t2, htbl, hpos, hlt, hle, hgate⟩
      exfalso
      have hqnil : q.toList = [] := List.length_eq_zero.1 hq
      have hnil : lowerChars q = [] := by
        rw [lowerChars, hqnil, List.map_nil]
      rw [hnil, categoryScore_nil] at hpos
      omega
  · cases hcs : category_scores (lowerChars q) with
    | nil =>
      have hbr : categorize_question q = none := by
        rw [categorize_question, if_neg hq, hcs]
      rw [hbr]
      constructor
      · intro h
        exact absurd h (by simp)
      · rintro ⟨kws, t1, t2, htbl, hpos, hlt, hle, hgate⟩
        exfalso
        have hmem : (c, categoryScore (lowerChars q) kws) ∈
            category_scores (lowerChars q) := by
          rw [category_scores_eq]
          refine List.mem_filter.2 ⟨?_, by simpa using hpos⟩
          rw [htbl]
          exact List.mem_map.2 ⟨(c, kws),
            List.mem_append_right _ (by simp), rfl⟩
        rw [hcs] at hmem
        exact absurd hmem (by simp)
    | cons x xs =>
      have hbr : categorize_question q =
          (if 2 ≤ (pyMax x xs).2 then some (pyMax x xs).1
           else if (pyMax x xs).2 = 1 then
             if (lookupKeywords (pyMax x xs).1).any (fun kw =>
                 decide (6 < kw.length) &&
                   isSubstrOf (lowerChars kw) (lowerChars q))
             then some (pyMax x xs).1 else none
           else none) := by
        rw [categorize_question, if_neg hq, hcs]
      obtain ⟨l1, l2, hsplit, hl1, hl2⟩ := pyMax_split xs x
      have hbmem : pyMax x xs ∈ category_scores (lowerChars q) := by
        rw [hcs, hsplit]
        exact List.mem_append_right _ (by simp)
      have hbpos : 0 < (pyMax x xs).2 := pos_of_mem_category_scores hbmem
      have hnd : (SUBJECT_CATEGORIES.map Prod.fst).Nodup := by decide
      rw [hbr]
      constructor
      · intro h
        have hfull : (SUBJECT_CATEGORIES.map
              (fun e => (e.1, categoryScore (lowerChars q) e.2))).filter
              (fun y => decide (0 < y.2)) = l1 ++ pyMax x xs :: l2 := by
          rw [← category_scores_eq, hcs]
          exact hsplit
        obtain ⟨m1, m2, hm, hmf1, hmf2⟩ := filter_split _ _ _ _ _ hfull
        obtain ⟨t1, eb, t2, htbl, hmap1, hfe, hmap2⟩ :=
          map_split _ _ _ _ _ hm
        have hS : categoryScore (lowerChars q) eb.2 = (pyMax x xs).2 := by
          have := congrArg Prod.snd hfe
          simpa using this
        have hname : eb.1 = (pyMax x xs).1 := by
          have := congrArg Prod.fst hfe
          simpa using this
        have hallle : ∀ e ∈ SUBJECT_CATEGORIES,
            categoryScore (lowerChars q) e.2 ≤ (pyMax x xs).2 := by
          intro e he
          by_cases hp : 0 < categoryScore (lowerChars q) e.2
          · have hmem2 : (e.1, categoryScore (lowerChars q) e.2) ∈
                category_scores (lowerChars q) := by
              rw [category_scores_eq]
              exact List.mem_filter.2
                ⟨List.mem_map.2 ⟨e, he, rfl⟩, by simpa using hp⟩
            rw [hcs, hsplit] at hmem2
            rcases List.mem_append.1 hmem2 with hmm | hmm
            · exact Nat.le_of_lt (hl1 _ hmm)
            · rcases List.mem_cons.1 hmm with heq | hmm
              · have := congrArg Prod.snd heq
                simp only [] at this
                omega
              · exact hl2 _ hmm
          · omega
        have ht1lt : ∀ e ∈ t1,
            categoryScore (lowerChars q) e.2 < (pyMax x xs).2 := by
          intro e he
          by_cases hp : 0 < categoryScore (lowerChars q) e.2
          · have hmm : (e.1, categoryScore (lowerChars q) e.2) ∈ m1 := by
              rw [← hmap1]
              exact List.mem_map.2 ⟨e, he, rfl⟩
            have hml : (e.1, categoryScore (lowerChars q) e.2) ∈ l1 := by
              rw [← hmf1]
              exact List.mem_filter.2 ⟨hmm, by simpa using hp⟩
            exact hl1 _ hml
          · omega
        have ht2le : ∀ e ∈ t2,
            categoryScore (lowerChars q) e.2 ≤ (pyMax x xs).2 := by
          intro e he
          refine hallle e ?_
          rw [htbl]
          exact List.mem_append_right _ (List.mem_cons_of_mem _ he)
        by_cases h2 : 2 ≤ (pyMax x xs).2
        · rw [if_pos h2] at h
          have hc : (pyMax x xs).1 = c := Option.some.inj h
          have heb : eb = (c, eb.2) := by
            rw [Prod.ext_iff]
            exact ⟨by rw [hname, hc], rfl⟩
          rw [heb] at htbl
          refine ⟨eb.2, t1, t2, htbl, by omega, ?_, ?_, Or.inl (by omega)⟩
          · intro e he
            have := ht1lt e he
            omega
          · intro e he
            have := ht2le e he
            omega
        · rw [if_neg h2] at h
          by_cases h1 : (pyMax x xs).2 = 1
          · rw [if_pos h1] at h
            by_cases hany : ((lookupKeywords (pyMax x xs).1).any (fun kw =>
                decide (6 < kw.length) &&
                  isSubstrOf (lowerChars kw) (lowerChars q))) = true
            · rw [if_pos hany] at h
              have hc : (pyMax x xs).1 = c := Option.some.inj h
              have heb : eb = (c, eb.2) := by
                rw [Prod.ext_iff]
                exact ⟨by rw [hname, hc], rfl⟩
              rw [heb] at htbl
              have hnd2 := hnd
              rw [htbl] at hnd2
              have hlk : lookupKeywords c = eb.2 := by
                rw [lookupKeywords, htbl, lookup_of_split t1 hnd2]
                rfl
              obtain ⟨kw, hkwmem, hkwp⟩ := List.any_eq_true.1 hany
              rw [hc, hlk] at hkwmem
              rw [Bool.and_eq_true] at hkwp
              obtain ⟨hkwlen, hkwsub⟩ := hkwp
              refine ⟨eb.2, t1, t2, htbl, by omega, ?_, ?_,
                Or.inr ⟨by omega, kw, hkwmem, by simpa using hkwlen,
                  hkwsub⟩⟩
              · intro e he
                have := ht1lt e he
                omega
              · intro e he
                have := ht2le e he
                omega
            · rw [if_neg hany] at h
              exact absurd h (by simp)
          · rw [if_neg h1] at h
            exact absurd h (by simp)
      · rintro ⟨kws, t1, t2, htbl2, hpos2, hlt2, hle2, hgate2⟩
        have hsplit2 : l1 ++ pyMax x xs :: l2 =
            ((t1.map (fun e =>
              (e.1, categoryScore (lowerChars q) e.2))).filter
              (fun y => decide (0 < y.2))) ++
            (c, categoryScore (lowerChars q) kws) ::
            ((t2.map (fun e =>
              (e.1, categoryScore (lowerChars q) e.2))).filter
              (fun y => decide (0 < y.2))) := by
          rw [← hsplit, ← hcs, category_scores_eq, htbl2]
          rw [List.map_append, List.map_cons, List.filter_append,
            List.filter_cons]
          rw [if_pos (show (decide
            (0 < categoryScore (lowerChars q) kws)) = true by
              simpa using hpos2)]
        have hA : ∀ y ∈ ((t1.map (fun e =>
            (e.1, categoryScore (lowerChars q) e.2))).filter
            (fun y => decide (0 < y.2))),
            y.2 < categoryScore (lowerChars q) kws := by
          intro y hy
          obtain ⟨hym, _⟩ := List.mem_filter.1 hy
          obtain ⟨e, he, rfl⟩ := List.mem_map.1 hym
          exact hlt2 e he
        have hB : ∀ y ∈ ((t2.map (fun e =>
            (e.1, categoryScore (lowerChars q) e.2))).filter
            (fun y => decide (0 < y.2))),
            y.2 ≤ categoryScore (lowerChars q) kws := by
          intro y hy
          obtain ⟨hym, _⟩ := List.mem_filter.1 hy
          obtain ⟨e, he, rfl⟩ := List.mem_map.1 hym
          exact hle2 e he
        have hbest : pyMax x xs = (c, categoryScore (lowerChars q) kws) :=
          firstMax_unique l1 hsplit2 hl1 hl2 hA hB
        have hb1 : (pyMax x xs).1 = c := by rw [hbest]
        have hb2 : (pyMax x xs).2 = categoryScore (lowerChars q) kws := by
          rw [hbest]
        rw [hb2, hb1]
        have hnd2 := hnd
        rw [htbl2] at hnd2
        have hlk : lookupKeywords c = kws := by
          rw [lookupKeywords, htbl2, lookup_of_split t1 hnd2]
          rfl
        rcases hgate2 with h2 | ⟨h1, kw, hkw, hlen, hsub⟩
        · rw [if_pos h2]
        · have hn2 : ¬ 2 ≤ categoryScore (lowerChars q) kws := by omega
          rw [if_neg hn2, if_pos h1,
            if_pos (List.any_eq_true.2 ⟨kw, by rw [hlk]; exact hkw,
              by rw [Bool.and_eq_true]; exact ⟨by simpa using hlen, hsub⟩⟩)]

/-! ### Claim C1 (the confidence gate, corrected) -/

/-- Counterexample to claim C1 as stated: on "math precalculus" the only
scoring category is Mathematics with score exactly 1, no Mathematics keyword
longer than 6 characters has a whole-word match, and yet the classifier
returns Mathematics — because the `score == 1` branch of the source tests
substring containment ("calculus" occurs inside "precalculus"), not the
matched keywords. -/
theorem C1_gate_counterexample :
    categorize_question "math precalculus" = some "Mathematics" ∧
    categoryScore (lowerChars "math precalculus")
      (lookupKeywords "Mathematics") = 1 ∧
    ((lookupKeywords "Mathematics").all fun kw =>
      decide (countOccs (lowerChars kw) (lowerChars "math precalculus") = 0)
        || decide (kw.length ≤ 6)) = true := by
  refine ⟨by decide, by decide, by decide⟩

/-- Claim C1 as amended: `categorize_question` returns a category exactly
when that category is the first-listed top scorer with a positive score and
either its score is at least 2, or its score is exactly 1 and one of its
keywords longer than 6 characters occurs as a (case-insensitive, not
necessarily word-delimited) substring of the question. -/
theorem C1_confidence_gate (q c : String) :
    categorize_question q = some c ↔
    ∃ kws t1 t2,
      SUBJECT_CATEGORIES = t1 ++ (c, kws) :: t2 ∧
      0 < categoryScore (lowerChars q) kws ∧
      (∀ e ∈ t1, categoryScore (lowerChars q) e.2 <
        categoryScore (lowerChars q) kws) ∧
      (∀ e ∈ t2, categoryScore (lowerChars q) e.2 ≤
        categoryScore (lowerChars q) kws) ∧
      (2 ≤ categoryScore (lowerChars q) kws ∨
        (categoryScore (lowerChars q) kws = 1 ∧
          ∃ kw ∈ kws, 6 < kw.length ∧
            isSubstrOf (lowerChars kw) (lowerChars q) = true)) :=
  categorize_spec q c

/-! ### Claim C3 (two whole-word matches in a single category decide it) -/

/-- Claim C3: a question with at least two whole-word keyword matches in one
category and no keyword occurrence in any other category is classified as
that category. -/
theorem C3_two_matches_single_category (q c : String) (kws : List String)
    (t1 t2 : List (String × List String))
    (htbl : SUBJECT_CATEGORIES = t1 ++ (c, kws) :: t2)
    (hmatches : 2 ≤ categoryMatches (lowerChars q) kws)
    (hothers : ∀ e ∈ t1 ++ t2, categoryMatches (lowerChars q) e.2 = 0) :
    categorize_question q = some c := by
  have hscore : 2 ≤ categoryScore (lowerChars q) kws :=
    le_trans hmatches (categoryMatches_le_categoryScore _ _)
  refine (categorize_spec q c).2
    ⟨kws, t1, t2, htbl, by omega, ?_, ?_, Or.inl hscore⟩
  · intro e he
    have h0 := categoryScore_eq_zero_of_matches_zero
      (hothers e (List.mem_append_left _ he))
    omega
  · intro e he
    have h0 := categoryScore_eq_zero_of_matches_zero
      (hothers e (List.mem_append_right _ he))
    omega

/-- Witness for C3: "algebra and geometry" has two whole-word Mathematics
matches and no keyword occurrence in any other category, and is classified
as Mathematics. -/
theorem C3_two_matches_single_category_witness :
    categorize_question "algebra and geometry" = some "Mathematics" :=
  C3_two_matches_single_category "algebra and geometry" "Mathematics"
    (lookupKeywords "Mathematics") [] SUBJECT_CATEGORIES.tail
    (by decide) (by decide) (by decide)

end StudyAssistant
